import Mathlib

/-!
Shallow embedding of the URL-shortener service core (request pipeline,
router, controllers, persistence queries) and proofs about the claims of
its specification.  Each definition mirrors one function of the source
(`src/middleware/index.ts`, `src/routes.ts`, `src/controllers/*.ts`,
`src/utils.ts`, `src/db.ts`).  External collaborators (bcrypt, jsonwebtoken,
`new URL`, JSON parsing, day-bucket aggregation) are passed in as oracle
parameters; machine integers are `Nat`/`Int`; HTTP responses are an
explicit structure.
-/

/-- JSON values, used for structured response payloads. -/
inductive Json where
  | null : Json
  | bool (b : Bool) : Json
  | str (s : String) : Json
  | num (n : Int) : Json
  | arr (xs : List Json) : Json
  | obj (fields : List (String × Json)) : Json

/-- The body of an HTTP response produced by the service.  The source builds
bodies in four distinct ways, kept apart here so that the shape of a response
is observable:
* `successEnv` — the helper `successResponse(data, message)` giving success true,
  a message and data;
* `errorEnv` — the helper `errorResponse(message, statusCode = 400)` giving
  success false, an error string and a `statusCode` field;
* `jsonError` — an inline two-field JSON object with success false and an error
  string (used by the middleware layer and the router's 404);
* `text` — a plain text body from the bare `Response` constructor;
* `empty` — no body (redirects, preflight). -/
inductive Body where
  | successEnv (message : String) (data : Json) : Body
  | errorEnv (error : String) (statusCode : Nat) : Body
  | jsonError (error : String) : Body
  | text (content : String) : Body
  | empty : Body

/-- An HTTP response: status code, body, and the Location target for
redirects.  Headers other than Location are not modelled. -/
structure Resp where
  status : Nat
  body : Body
  location : Option String := none

/-- Build a response with a status and a body and no Location header
(`Response.json(body, status)` in the source). -/
def jsonResp (status : Nat) (b : Body) : Resp :=
  { status := status, body := b }

/-- Helper `successResponse` from src/utils.ts. -/
def successResponse (data : Json) (message : String) : Body :=
  Body.successEnv message data

/-- Helper `errorResponse` from src/utils.ts; the `statusCode` argument is
always left at its default 400 by every caller in the source. -/
def errorResponse (message : String) : Body :=
  Body.errorEnv message 400

/-- JavaScript falsiness of an optional string value (`undefined`/`null`/`""`
are falsy; every other string is truthy). -/
def strFalsy : Option String → Bool
  | none => true
  | some s => decide (s = "")

/-! ### Character-level string utilities

The source splits strings with JavaScript's `split(separator)` and tests
substrings with `includes`.  They are re-implemented structurally over
`List Char` so that every definition reduces in the kernel. -/

/-- Split a character list at every occurrence of `sep`, returning the first
part and the remaining parts; mirrors JavaScript `String.split` (no collapsing
of empty parts). -/
def splitOnChar (sep : Char) : List Char → List Char × List (List Char)
  | [] => ([], [])
  | c :: cs =>
      let r := splitOnChar sep cs
      if c = sep then ([], r.1 :: r.2) else (c :: r.1, r.2)

/-- All parts produced by splitting at `sep`; always nonempty, exactly like
JavaScript `split`. -/
def splitAll (sep : Char) (l : List Char) : List (List Char) :=
  (splitOnChar sep l).1 :: (splitOnChar sep l).2

/-- Join parts with `sep` between them (the inverse of `splitAll`). -/
def joinAll (sep : Char) : List (List Char) → List Char
  | [] => []
  | [p] => p
  | p :: q :: rest => p ++ sep :: joinAll sep (q :: rest)

/-- Whether `pat` is a prefix of `l`. -/
def isPrefixList : List Char → List Char → Bool
  | [], _ => true
  | _ :: _, [] => false
  | a :: as, b :: bs => a = b && isPrefixList as bs

/-- Whether `pat` occurs as a contiguous substring of the list; mirrors
JavaScript `String.includes`. -/
def containsSub (pat : List Char) : List Char → Bool
  | [] => pat.isEmpty
  | c :: rest => isPrefixList pat (c :: rest) || containsSub pat rest

/-- Whether the string starts with the routing parameter marker `:`
(JavaScript `startsWith(":")`). -/
def startsWithColon (s : String) : Bool :=
  match s.toList with
  | c :: _ => decide (c = ':')
  | [] => false

/-- Drop the first character of a string (JavaScript `slice(1)` on the
parameter marker). -/
def dropHeadChar (s : String) : String :=
  String.mk (s.toList.drop 1)

/-! ### Credential and token service (src/utils.ts, AuthService) -/

/-- The claim set carried by a bearer token. -/
structure JwtPayload where
  userId : Nat
  username : String
deriving Repr, DecidableEq

/-- AuthService.extractTokenFromHeader: expects exactly two space-separated
parts with the first equal to "Bearer"; returns the second part, else null.
A null or empty header value is falsy and yields null at once. -/
def AuthService.extractTokenFromHeader (authHeader : Option String) : Option String :=
  match authHeader with
  | none => none
  | some s =>
      if s = "" then none
      else
        match splitAll ' ' s.toList with
        | [p0, p1] => if p0 = "Bearer".toList then some (String.mk p1) else none
        | _ => none

/-- Outcome of a middleware step: either it short-circuits with a response
(the downstream handler is never invoked), or it lets the chain continue,
carrying the identity it attached to the request context. -/
inductive AuthStep where
  | short (r : Resp) : AuthStep
  | proceed (userId : Nat) (username : String) : AuthStep

/-- The 401 response of the authenticate middleware when no token is present. -/
def noTokenResp : Resp :=
  { status := 401, body := Body.jsonError "No token provided" }

/-- The 401 response of the authenticate middleware when verification fails. -/
def invalidTokenResp : Resp :=
  { status := 401, body := Body.jsonError "Invalid or expired token" }

/-- The authenticate middleware (src/middleware/index.ts).  `verifyToken`
models AuthService.verifyToken (the jsonwebtoken library, an external
collaborator returning null on any failure).  The source guard `if (!token)`
treats both a null and an empty extracted token as missing. -/
def authenticate (verifyToken : String → Option JwtPayload)
    (authHeader : Option String) : AuthStep :=
  match AuthService.extractTokenFromHeader authHeader with
  | none => AuthStep.short noTokenResp
  | some token =>
      if token = "" then AuthStep.short noTokenResp
      else
        match verifyToken token with
        | none => AuthStep.short invalidTokenResp
        | some payload => AuthStep.proceed payload.userId payload.username

/-! ### Validators (src/utils.ts, Validator) -/

/-- Characters allowed by the username pattern `[a-zA-Z0-9_]`. -/
def isUsernameChar (c : Char) : Bool :=
  c.isAlpha || c.isDigit || decide (c = '_')

/-- Validator.isValidUsername: 3-20 characters, alphanumeric and underscores. -/
def Validator.isValidUsername (u : String) : Bool :=
  decide (3 ≤ u.length) && decide (u.length ≤ 20) && u.toList.all isUsernameChar

/-- Character class `[^\s@]` of the email pattern. -/
def isEmailChar (c : Char) : Bool :=
  !c.isWhitespace && decide (c ≠ '@')

/-- A dot occurring neither at the first nor at the last position, the shape
`[^\s@]+\.[^\s@]+` requires of the domain part. -/
def hasInnerDot (l : List Char) : Bool :=
  match l with
  | [] => false
  | _ :: rest => rest.dropLast.contains '.'

/-- Validator.isValidEmail: the pattern `^[^\s@]+@[^\s@]+\.[^\s@]+$`, namely
exactly one `@` (both classes exclude it) splitting the string into a nonempty
local part and a domain that contains an inner dot, no whitespace anywhere. -/
def Validator.isValidEmail (e : String) : Bool :=
  match e.toList.splitOn '@' with
  | [lcl, dom] =>
      !lcl.isEmpty && lcl.all isEmailChar && !dom.isEmpty && dom.all isEmailChar
        && hasInnerDot dom
  | _ => false

/-- Validator.isValidPassword: at least 8 characters with at least one
uppercase letter, one lowercase letter and one digit. -/
def Validator.isValidPassword (p : String) : Bool :=
  decide (8 ≤ p.length) && p.toList.any Char.isUpper && p.toList.any Char.isLower
    && p.toList.any Char.isDigit

/-- Characters allowed by the custom-code pattern `[a-zA-Z0-9_-]`. -/
def isCodeChar (c : Char) : Bool :=
  c.isAlpha || c.isDigit || decide (c = '_') || decide (c = '-')

/-- The inline custom-code pattern `^[a-zA-Z0-9_-]{3,20}$` of
UrlController.createShortUrl. -/
def isValidCustomCode (s : String) : Bool :=
  decide (3 ≤ s.length) && decide (s.length ≤ 20) && s.toList.all isCodeChar

/-! ### Rate limiter (src/middleware/index.ts, rateLimit) -/

/-- One entry of the in-memory rate-limit map: requests counted so far and
the timestamp at which the window resets. -/
structure RLRecord where
  count : Nat
  resetAt : Int
deriving Repr, DecidableEq

/-- The in-memory rate-limit map, keyed by client IP. -/
def RLStore : Type := String → Option RLRecord

/-- Map update (`rateLimitStore.set`). -/
def rlSet (st : RLStore) (k : String) (v : RLRecord) : RLStore :=
  fun q => if q = k then some v else st q

/-- The empty rate-limit map (state at process start). -/
def rlEmpty : RLStore := fun _ => none

/-- The 429 response of the rate limiter.  Its rate-limit headers
(limit / remaining / reset) are not modelled. -/
def tooManyResp : Resp :=
  { status := 429, body := Body.jsonError "Too many requests. Please try again later." }

/-- One pass of the rateLimit middleware for a request with client key `ip`
arriving at time `now`: `none` in the first component means the chain
continues, `some r` means it short-circuits with `r`; the second component is
the updated map.  Mirrors the source exactly: inside a live window a count at
or above the maximum rejects without incrementing, otherwise the count is
incremented; outside a live window (no record, or the reset time reached) the
record restarts at count 1 with reset `now + windowMs`. -/
def rateLimitStep (maxRequests : Nat) (windowMs : Int) (st : RLStore) (ip : String)
    (now : Int) : Option Resp × RLStore :=
  match st ip with
  | some record =>
      if now < record.resetAt then
        if maxRequests ≤ record.count then (some tooManyResp, st)
        else (none, rlSet st ip { count := record.count + 1, resetAt := record.resetAt })
      else (none, rlSet st ip { count := 1, resetAt := now + windowMs })
  | none => (none, rlSet st ip { count := 1, resetAt := now + windowMs })

/-- Run the rate limiter over a sequence of requests `(key, time)`, collecting
for each whether it was rejected with a 429. -/
def rateLimitRun (maxRequests : Nat) (windowMs : Int) :
    RLStore → List (String × Int) → List Bool × RLStore
  | st, [] => ([], st)
  | st, (ip, now) :: rest =>
      let step := rateLimitStep maxRequests windowMs st ip now
      let r := rateLimitRun maxRequests windowMs step.2 rest
      (step.1.isSome :: r.1, r.2)

/-! ### JSON body parser and error boundary (src/middleware/index.ts) -/

/-- JavaScript `contentType.includes("application/json")`. -/
def includesJson (ct : String) : Bool :=
  containsSub "application/json".toList ct.toList

/-- The jsonParser middleware.  For methods other than GET and DELETE, when a
Content-Type header declares JSON, the raw body is parsed: a parse failure
short-circuits with a 400 (`Sum.inl`), success attaches the parsed body.  In
every other case the body is left unset (`Sum.inr none`) and the chain
continues.  `parsed` is the outcome of `ctx.req.json()` (an external
collaborator), consulted only when parsing actually happens. -/
def jsonParserRun (α : Type) (method : String) (contentType : Option String)
    (parsed : Except Unit α) : Resp ⊕ Option α :=
  if method = "GET" || method = "DELETE" then Sum.inr none
  else
    match contentType with
    | none => Sum.inr none
    | some ct =>
        if includesJson ct then
          match parsed with
          | Except.error _ => Sum.inl { status := 400, body := Body.jsonError "Invalid JSON body" }
          | Except.ok a => Sum.inr (some a)
        else Sum.inr none

/-- The errorHandler middleware: an exception escaping the inner chain
(modelled as `Except.error` carrying the thrown message) is converted into a
structured 500 response; a normal response passes through. -/
def errorHandler (inner : Except String Resp) : Resp :=
  match inner with
  | Except.ok r => r
  | Except.error msg => { status := 500, body := Body.jsonError msg }

/-! ### Register controller (src/controllers/auth.controller.ts) -/

/-- The parsed JSON body of a register request; absent fields are `none`.
(Non-string JSON values are not modelled; the controller only reads the three
string fields.) -/
structure RegisterBody where
  username : Option String
  email : Option String
  password : Option String
deriving Repr, DecidableEq

/-- AuthController.register.  Database lookups, bcrypt and token issuance are
oracle parameters (`findUserByUsername`, `findUserByEmail`, `hashPassword`,
`generateToken`, and `newUserId` for the row id the insert produces).  When
the request context carries no body at all, the source destructures
`undefined` and throws before its try block: that is the `Except.error`
branch, caught only by the outer error boundary.  The guard `!username` also
treats an empty string as missing. -/
def register (findUserByUsername : String → Option Nat)
    (findUserByEmail : String → Option Nat)
    (hashPassword : String → String) (generateToken : Nat → String → String)
    (newUserId : Nat) (body : Option RegisterBody) : Except String Resp :=
  match body with
  | none => Except.error "Right side of assignment cannot be destructured"
  | some b =>
      match b.username, b.email, b.password with
      | some username, some email, some password =>
          if username = "" || email = "" || password = "" then
            Except.ok (jsonResp 400 (errorResponse "All fields are required"))
          else if !Validator.isValidUsername username then
            Except.ok (jsonResp 400 (errorResponse
              "Username must be 3-20 characters, alphanumeric and underscores only"))
          else if !Validator.isValidEmail email then
            Except.ok (jsonResp 400 (errorResponse "Invalid email format"))
          else if !Validator.isValidPassword password then
            Except.ok (jsonResp 400 (errorResponse
              "Password must be at least 8 characters with uppercase, lowercase, and number"))
          else
            match findUserByUsername username with
            | some _ =>
                Except.ok (jsonResp 409 (errorResponse "Username already exists"))
            | none =>
                match findUserByEmail email with
                | some _ =>
                    Except.ok (jsonResp 409 (errorResponse "Email already exists"))
                | none =>
                    let _ := hashPassword password
                    Except.ok (jsonResp 201 (successResponse
                      (Json.obj
                        [("user", Json.obj
                            [("id", Json.num newUserId),
                             ("username", Json.str username),
                             ("email", Json.str email)]),
                         ("token", Json.str (generateToken newUserId username))])
                      "User registered successfully"))
      | _, _, _ =>
          Except.ok (jsonResp 400 (errorResponse "All fields are required"))

/-- The register route as dispatched by the server: the jsonParser route
middleware in front of the controller, the whole pipeline wrapped in the
errorHandler boundary (logger, CORS and rate limiter pass non-OPTIONS,
non-limited requests through unchanged and are modelled separately). -/
def registerRoute (findUserByUsername : String → Option Nat)
    (findUserByEmail : String → Option Nat)
    (hashPassword : String → String) (generateToken : Nat → String → String)
    (newUserId : Nat) (contentType : Option String)
    (parsed : Except Unit RegisterBody) : Resp :=
  errorHandler
    (match jsonParserRun RegisterBody "POST" contentType parsed with
     | Sum.inl r => Except.ok r
     | Sum.inr b =>
         register findUserByUsername findUserByEmail hashPassword generateToken newUserId b)

/-! ### Router / dispatcher (src/routes.ts) -/

/-- A registered route: method, path pattern, and a tag naming its handler
(route-level middlewares are modelled with the controllers themselves). -/
structure Route where
  method : String
  path : String
  tag : String
deriving Repr, DecidableEq

/-- Path split into segments: JavaScript `split("/").filter(Boolean)` drops
the empty segments. -/
def segmentsOf (p : String) : List String :=
  ((splitAll '/' p.toList).map String.mk).filter (fun s => decide (s ≠ ""))

/-- JavaScript object assignment `params[name] = value`: replace the value if
the key is present, otherwise append the pair. -/
def paramsSet (ps : List (String × String)) (k v : String) : List (String × String) :=
  if ps.any (fun q => decide (q.1 = k)) then
    ps.map (fun q => if q.1 = k then (k, v) else q)
  else ps ++ [(k, v)]

/-- JavaScript object read `params[name]`. -/
def paramsGet (ps : List (String × String)) (k : String) : Option String :=
  (ps.find? (fun q => decide (q.1 = k))).map (fun q => q.2)

/-- The segment loop of Router.matchPath: a pattern segment starting with `:`
always matches and binds the rest of its name to the path segment; any other
pattern segment must equal the path segment; differing segment counts fail
(the source checks the lengths up front, this recursion discovers the
mismatch at the end — the result is the same). -/
def matchSegsAux (acc : List (String × String)) :
    List String → List String → Option (List (String × String))
  | [], [] => some acc
  | pat :: pats, seg :: segs =>
      if startsWithColon pat then matchSegsAux (paramsSet acc (dropHeadChar pat) seg) pats segs
      else if pat = seg then matchSegsAux acc pats segs
      else none
  | _, _ => none

/-- Router.matchPath. -/
def Router.matchPath (pattern pathname : String) : Option (List (String × String)) :=
  matchSegsAux [] (segmentsOf pattern) (segmentsOf pathname)

/-- Router.match: scan the registered routes in order; skip routes whose
method differs; return the first whose pattern matches, with its bound
parameters. -/
def routerMatch : List Route → String → String → Option (Route × List (String × String))
  | [], _, _ => none
  | r :: rs, method, pathname =>
      if r.method = method then
        match Router.matchPath r.path pathname with
        | some ps => some (r, ps)
        | none => routerMatch rs method pathname
      else routerMatch rs method pathname

/-- The router's 404 response (Router.handle, no route matched). -/
def routeNotFoundResp : Resp :=
  jsonResp 404 (Body.jsonError "Route not found")

/-- Outcome of Router.handle up to the invocation of the matched handler:
either the structured 404, or the selected route together with the path
parameters bound into the context. -/
inductive Dispatch where
  | notFound (r : Resp) : Dispatch
  | dispatch (route : Route) (params : List (String × String)) : Dispatch

/-- Router.handle's selection step. -/
def Router.dispatchOf (routes : List Route) (method pathname : String) : Dispatch :=
  match routerMatch routes method pathname with
  | none => Dispatch.notFound routeNotFoundResp
  | some (r, ps) => Dispatch.dispatch r ps

/-- The application's route table, in registration order (src/routes.ts);
the single-segment redirect route is registered after every API route. -/
def appRoutes : List Route :=
  [⟨"GET", "/health", "health"⟩,
   ⟨"POST", "/api/auth/register", "register"⟩,
   ⟨"POST", "/api/auth/login", "login"⟩,
   ⟨"GET", "/api/auth/profile", "getProfile"⟩,
   ⟨"POST", "/api/urls", "createShortUrl"⟩,
   ⟨"GET", "/api/urls", "getUserUrls"⟩,
   ⟨"GET", "/api/urls/:code/analytics", "getAnalytics"⟩,
   ⟨"DELETE", "/api/urls/:code", "deleteUrl"⟩,
   ⟨"GET", "/:code", "redirect"⟩,
   ⟨"GET", "/", "docs"⟩]

/-! ### Persistence layer (src/db.ts) -/

/-- A row of the `urls` table. -/
structure UrlRow where
  id : Nat
  shortCode : String
  originalUrl : String
  userId : Option Nat
  clicks : Nat
  expiresAt : Option Int
deriving Repr, DecidableEq

/-- A row of the `analytics` table (click events); timestamps of the rows are
not needed by any claim and are omitted. -/
structure ClickRow where
  urlId : Nat
  userAgent : Option String
  referer : Option String
  ipAddress : String
deriving Repr, DecidableEq

/-- The relational store as seen by the URL controller. -/
structure Store where
  urls : List UrlRow
  analytics : List ClickRow
deriving Repr, DecidableEq

/-- queries.findUrlByShortCode: first row with the given short code. -/
def findUrlByShortCode (s : Store) (code : String) : Option UrlRow :=
  s.urls.find? (fun r => decide (r.shortCode = code))

/-- queries.incrementClicks: add one click to every row with the given id
(the id is the primary key, so at most one row). -/
def incrementClicks (s : Store) (idv : Nat) : Store :=
  { s with urls := s.urls.map (fun r => if r.id = idv then { r with clicks := r.clicks + 1 } else r) }

/-- queries.logClick: append one click-event row. -/
def logClick (s : Store) (c : ClickRow) : Store :=
  { s with analytics := s.analytics ++ [c] }

/-- queries.deleteUrl: `DELETE FROM urls WHERE short_code = ? AND user_id = ?`,
returning the updated store and the number of affected rows.  The bound
user id is always a number, so a row with NULL `user_id` never satisfies the
equality (SQL three-valued logic), exactly as `r.userId = some userId` here. -/
def queriesDeleteUrl (s : Store) (code : String) (userId : Nat) : Store × Nat :=
  let keep := s.urls.filter (fun r => decide (¬(r.shortCode = code ∧ r.userId = some userId)))
  ({ s with urls := keep }, s.urls.length - keep.length)

/-- The next autoincrement id for an insert into `urls`. -/
def nextUrlId (s : Store) : Nat :=
  (s.urls.map (fun r => r.id)).foldr max 0 + 1

/-- queries.createUrl: insert a fresh row with zero clicks. -/
def createUrlRow (s : Store) (code url : String) (userId : Option Nat)
    (expiresAt : Option Int) : Store :=
  { s with urls := s.urls ++ [⟨nextUrlId s, code, url, userId, 0, expiresAt⟩] }

/-- Number of click-event rows recorded for a given url id. -/
def countClicksFor (s : Store) (idv : Nat) : Nat :=
  (s.analytics.filter (fun c => decide (c.urlId = idv))).length

/-! ### Short-code generation (src/utils.ts, generateShortCode, and the
retry loop of UrlController.createShortUrl) -/

/-- The uniqueness-seeking loop: `gen k` is the k-th value produced by
generateShortCode (the zeroth is drawn before the loop), `taken` is the
store-existence check.  Each round checks the current code; a free code is
returned at once, a taken one consumes one attempt and draws the next code.
When the fuel (10 attempts in the source) is exhausted the loop gives up and
`none` signals the 500 path.  The draw made on the final failing round is
never checked, exactly as in the source. -/
def seekAux (taken : String → Bool) (gen : Nat → String) : Nat → Nat → Option String
  | _, 0 => none
  | k, fuel + 1 => if taken (gen k) then seekAux taken gen (k + 1) fuel else some (gen k)

/-- The creation flow's code search: up to 10 existence checks. -/
def seekUniqueCode (taken : String → Bool) (gen : Nat → String) : Option String :=
  seekAux taken gen 0 10

/-! ### URL controller (src/controllers/url.controller.ts) -/

/-- The parsed JSON body of a creation request. -/
structure CreateBody where
  url : Option String
  customCode : Option String
  expiresInDays : Option Int
deriving Repr, DecidableEq

/-- Header values read by the redirect handler (absent headers are `none`). -/
structure ReqHeaders where
  userAgent : Option String
  referer : Option String
  xForwardedFor : Option String
deriving Repr, DecidableEq

/-- JavaScript `headers.get(h) || null`: an empty header value is normalized
to null. -/
def jsOrNull (o : Option String) : Option String :=
  match o with
  | some "" => none
  | x => x

/-- JavaScript `headers.get(h) || "unknown"`. -/
def jsOrUnknown (o : Option String) : String :=
  match o with
  | none => "unknown"
  | some "" => "unknown"
  | some s => s

/-- The owner recorded on creation, `ctx.user?.userId || null`: the
authenticated caller's id or NULL for anonymous requests (user ids start at
1, so the `|| null` coercion of 0 never fires). -/
def creatorUserId (user : Option JwtPayload) : Option Nat :=
  user.map (fun u => u.userId)

/-- The 201 payload of a successful creation. -/
def createdBody (baseUrl code originalUrl : String) (expiresAt : Option Int) : Body :=
  successResponse
    (Json.obj
      [("shortCode", Json.str code),
       ("shortUrl", Json.str (baseUrl ++ "/" ++ code)),
       ("originalUrl", Json.str originalUrl),
       ("expiresAt", match expiresAt with | none => Json.null | some e => Json.num e)])
    "URL shortened successfully"

/-- The expiration recorded on creation: now plus `expiresInDays` days when
that field is truthy and positive, else NULL.  The source adds calendar days
via `Date.setDate`; day-length addition stands in for it here. -/
def computedExpiry (b : CreateBody) (now : Int) : Option Int :=
  match b.expiresInDays with
  | some d => if 0 < d then some (now + d * 86400000) else none
  | none => none

/-- UrlController.createShortUrl.  `validUrl` models Validator.isValidUrl
(JavaScript `new URL` plus the http/https scheme check, an external parser);
`gen` models the successive draws of generateShortCode; `now` the clock.  A
missing body makes the source destructure `undefined` and throw
(`Except.error`).  A falsy (`undefined` or empty) custom code selects the
auto-generation path of `customCode || generateShortCode()`. -/
def createShortUrl (validUrl : String → Bool) (gen : Nat → String) (baseUrl : String)
    (s : Store) (user : Option JwtPayload) (body : Option CreateBody) (now : Int) :
    Except String (Resp × Store) :=
  match body with
  | none => Except.error "Right side of assignment cannot be destructured"
  | some b =>
      match b.url with
      | none => Except.ok (jsonResp 400 (errorResponse "URL is required"), s)
      | some url =>
          if url = "" then Except.ok (jsonResp 400 (errorResponse "URL is required"), s)
          else if !validUrl url then
            Except.ok (jsonResp 400 (errorResponse "Invalid URL format"), s)
          else
            let finish : String → Resp × Store := fun code =>
              (jsonResp 201 (createdBody baseUrl code url (computedExpiry b now)),
               createUrlRow s code url (creatorUserId user) (computedExpiry b now))
            match b.customCode with
            | some cc =>
                if cc = "" then
                  match seekUniqueCode (fun c => (findUrlByShortCode s c).isSome) gen with
                  | none =>
                      Except.ok (jsonResp 500 (errorResponse "Failed to generate unique code"), s)
                  | some code => Except.ok (finish code)
                else if !isValidCustomCode cc then
                  Except.ok (jsonResp 400 (errorResponse
                    "Custom code must be 3-20 characters, alphanumeric, hyphens, and underscores only"), s)
                else if (findUrlByShortCode s cc).isSome then
                  Except.ok (jsonResp 409 (errorResponse "Custom code already exists"), s)
                else Except.ok (finish cc)
            | none =>
                match seekUniqueCode (fun c => (findUrlByShortCode s c).isSome) gen with
                | none =>
                    Except.ok (jsonResp 500 (errorResponse "Failed to generate unique code"), s)
                | some code => Except.ok (finish code)

/-- The side effects and response of a successful redirect: log one click
event, add one click, answer 302 with the original URL as Location. -/
def redirectGo (s : Store) (rec : UrlRow) (hdrs : ReqHeaders) : Resp × Store :=
  let s1 := logClick s
    ⟨rec.id, jsOrNull hdrs.userAgent, jsOrNull hdrs.referer, jsOrUnknown hdrs.xForwardedFor⟩
  let s2 := incrementClicks s1 rec.id
  ({ status := 302, body := Body.empty, location := some rec.originalUrl }, s2)

/-- UrlController.redirect.  The 404 and 410 responses are bare text
responses in the source (`new Response("URL not found")`,
`new Response("URL has expired")`), not JSON envelopes. -/
def redirect (s : Store) (codeParam : Option String) (hdrs : ReqHeaders) (now : Int) :
    Resp × Store :=
  match codeParam with
  | none => (jsonResp 400 (errorResponse "Short code is required"), s)
  | some code =>
      if code = "" then (jsonResp 400 (errorResponse "Short code is required"), s)
      else
        match findUrlByShortCode s code with
        | none => ({ status := 404, body := Body.text "URL not found" }, s)
        | some rec =>
            match rec.expiresAt with
            | some e =>
                if e < now then ({ status := 410, body := Body.text "URL has expired" }, s)
                else redirectGo s rec hdrs
            | none => redirectGo s rec hdrs

/-- Sequentially issue one redirect per timestamp in the list, collecting the
responses. -/
def redirectRun (hdrs : ReqHeaders) (code : String) :
    Store → List Int → List Resp × Store
  | s, [] => ([], s)
  | s, t :: ts =>
      let step := redirect s (some code) hdrs t
      let r := redirectRun hdrs code step.2 ts
      (step.1 :: r.1, r.2)

/-- UrlController.getAnalytics.  `aggregate` models the day-bucket query
queries.getUrlAnalytics over the click rows of the URL. -/
def getAnalytics (aggregate : List ClickRow → Json) (s : Store)
    (user : Option JwtPayload) (codeParam : Option String) : Resp :=
  match user with
  | none => jsonResp 401 (errorResponse "Unauthorized")
  | some u =>
      match codeParam with
      | none => jsonResp 400 (errorResponse "Short code is required")
      | some code =>
          if code = "" then jsonResp 400 (errorResponse "Short code is required")
          else
            match findUrlByShortCode s code with
            | none => jsonResp 404 (errorResponse "URL not found")
            | some rec =>
                if rec.userId ≠ some u.userId then
                  jsonResp 403 (errorResponse "Unauthorized")
                else
                  jsonResp 200 (successResponse
                    (Json.obj
                      [("shortCode", Json.str code),
                       ("totalClicks", Json.num rec.clicks),
                       ("clicksByDay",
                        aggregate (s.analytics.filter (fun c => decide (c.urlId = rec.id))))])
                    "Success")

/-- UrlController.deleteUrl: run the conditional delete scoped to
`(code, caller id)`; zero affected rows yield the unified 404. -/
def deleteUrlCtrl (s : Store) (user : Option JwtPayload) (codeParam : Option String) :
    Resp × Store :=
  match user with
  | none => (jsonResp 401 (errorResponse "Unauthorized"), s)
  | some u =>
      match codeParam with
      | none => (jsonResp 400 (errorResponse "Short code is required"), s)
      | some code =>
          if code = "" then (jsonResp 400 (errorResponse "Short code is required"), s)
          else
            let res := queriesDeleteUrl s code u.userId
            if res.2 = 0 then
              (jsonResp 404 (errorResponse "URL not found or unauthorized"), res.1)
            else
              (jsonResp 200 (successResponse Json.null "URL deleted successfully"), res.1)

/-! ### Specification-side predicates

These definitions follow the words of the specification (not the source) and
are compared with the source-derived definitions in the theorems below. -/

/-- The spec's error envelope: a JSON body carrying success false and a
human-readable error string (with or without the extra statusCode field the
errorResponse helper adds). -/
def isErrorEnvelope (b : Body) : Prop :=
  (∃ m, b = Body.jsonError m) ∨ (∃ m k, b = Body.errorEnv m k)

/-- The spec's per-segment matching rule: a parameter segment always matches;
a literal segment must be equal to the path segment. -/
def segOk (p s : String) : Prop :=
  startsWithColon p = true ∨ p = s

/-- The in-order name-to-value bindings the spec expects parameter segments
to contribute. -/
def paramBindings : List String → List String → List (String × String)
  | p :: ps, s :: ss =>
      if startsWithColon p then (dropHeadChar p, s) :: paramBindings ps ss
      else paramBindings ps ss
  | _, _ => []

/-- The names of the parameter segments of a pattern. -/
def paramNames (ps : List String) : List String :=
  (ps.filter (fun p => startsWithColon p)).map dropHeadChar

/-! ## Theorems -/

/-! ### General lemmas about the embedded definitions -/

/-- Joining the parts of a split restores the original list (the algebraic
link between JavaScript `split` and the original string). -/
theorem joinAll_splitAll (sep : Char) : ∀ l : List Char, joinAll sep (splitAll sep l) = l := by
  intro l
  induction l with
  | nil => rfl
  | cons c cs ih =>
      have hsplit : splitAll sep cs = (splitOnChar sep cs).1 :: (splitOnChar sep cs).2 := rfl
      by_cases hc : c = sep
      · have h1 : splitAll sep (c :: cs)
            = [] :: (splitOnChar sep cs).1 :: (splitOnChar sep cs).2 := by
          simp [splitAll, splitOnChar, hc]
        have h2 : joinAll sep ([] :: (splitOnChar sep cs).1 :: (splitOnChar sep cs).2)
            = sep :: joinAll sep ((splitOnChar sep cs).1 :: (splitOnChar sep cs).2) := by
          simp [joinAll]
        rw [h1, h2, ← hsplit, ih, hc]
      · have h1 : splitAll sep (c :: cs)
            = (c :: (splitOnChar sep cs).1) :: (splitOnChar sep cs).2 := by
          simp [splitAll, splitOnChar, hc]
        rw [h1]
        rw [hsplit] at ih
        rcases h2 : (splitOnChar sep cs).2 with _ | ⟨q, qs⟩
        · rw [h2] at ih
          simp only [joinAll] at ih ⊢
          rw [ih]
        · rw [h2] at ih
          simp only [joinAll] at ih ⊢
          rw [List.cons_append, ih]

/-- logClick leaves the `urls` table unchanged. -/
theorem findUrl_logClick (s : Store) (c : ClickRow) (code : String) :
    findUrlByShortCode (logClick s c) code = findUrlByShortCode s code := rfl

/-- Bumping the click counter of one id maps over the lookup result, because
the short code of every row is preserved. -/
theorem find_map_increment (l : List UrlRow) (idv : Nat) (code : String) :
    (l.map (fun r => if r.id = idv then { r with clicks := r.clicks + 1 } else r)).find?
        (fun r => decide (r.shortCode = code))
      = (l.find? (fun r => decide (r.shortCode = code))).map
          (fun r => if r.id = idv then { r with clicks := r.clicks + 1 } else r) := by
  induction l with
  | nil => rfl
  | cons a l ih =>
      by_cases h : a.shortCode = code
      · rw [List.map_cons,
          List.find?_cons_of_pos _ (by by_cases hid : a.id = idv <;> simp [hid, h]),
          List.find?_cons_of_pos _ (by simp [h])]
        rfl
      · rw [List.map_cons,
          List.find?_cons_of_neg _ (by by_cases hid : a.id = idv <;> simp [hid, h]),
          List.find?_cons_of_neg _ (by simp [h]),
          ih]

/-- incrementClicks transforms short-code lookup results pointwise. -/
theorem findUrl_incrementClicks (s : Store) (idv : Nat) (code : String) :
    findUrlByShortCode (incrementClicks s idv) code
      = (findUrlByShortCode s code).map
          (fun r => if r.id = idv then { r with clicks := r.clicks + 1 } else r) :=
  find_map_increment s.urls idv code

/-- incrementClicks does not touch the click-event rows. -/
theorem countClicks_incrementClicks (s : Store) (idv j : Nat) :
    countClicksFor (incrementClicks s idv) j = countClicksFor s j := rfl

/-- logClick adds exactly one click-event row for its url id. -/
theorem countClicks_logClick_same (s : Store) (c : ClickRow) :
    countClicksFor (logClick s c) c.urlId = countClicksFor s c.urlId + 1 := by
  simp [countClicksFor, logClick, List.filter_append]

/-- One successful (existing, unexpired) redirect: the 302 response with the
original URL, one appended click row, one click added. -/
theorem redirect_step (s : Store) (code : String) (hdrs : ReqHeaders) (now : Int)
    (rec : UrlRow) (hcode : code ≠ "")
    (hfind : findUrlByShortCode s code = some rec)
    (hexp : ∀ e, rec.expiresAt = some e → ¬e < now) :
    redirect s (some code) hdrs now
      = ({ status := 302, body := Body.empty, location := some rec.originalUrl },
         incrementClicks
           (logClick s ⟨rec.id, jsOrNull hdrs.userAgent, jsOrNull hdrs.referer,
             jsOrUnknown hdrs.xForwardedFor⟩) rec.id) := by
  rcases hexpEq : rec.expiresAt with _ | e
  · simp [redirect, hcode, hfind, hexpEq, redirectGo]
  · have hnl := hexp e hexpEq
    simp [redirect, hcode, hfind, hexpEq, hnl, redirectGo]

/-! ### Claim C1 — error responses and the JSON envelope -/

/-- C1 counterexample: the redirect endpoint's 404 (absent code) and 410
(expired code) responses are plain-text bodies ("URL not found", "URL has
expired"), not the structured success-false/error JSON envelope, refuting the
claim at these concrete requests. -/
theorem redirect_404_410_not_envelope :
    ((redirect { urls := [], analytics := [] } (some "abc")
        ⟨none, none, none⟩ 0).1
        = { status := 404, body := Body.text "URL not found" })
  ∧ ((redirect { urls := [⟨1, "old", "https://example.com", none, 0, some 100⟩], analytics := [] }
        (some "old") ⟨none, none, none⟩ 200).1
        = { status := 410, body := Body.text "URL has expired" })
  ∧ ¬isErrorEnvelope (Body.text "URL not found")
  ∧ ¬isErrorEnvelope (Body.text "URL has expired") := by
  refine ⟨rfl, rfl, ?_, ?_⟩ <;>
    rintro (⟨m, hm⟩ | ⟨m, k, hm⟩) <;> exact Body.noConfusion hm

/-- C1 (amended): every structured JSON error response carries the
success-false/error envelope (the controller helper, the middleware 401s and
429, the router 404), but the redirect endpoint's 404 and 410 are plain-text
responses "URL not found" and "URL has expired" without the envelope. -/
theorem error_envelope_amended
    (s : Store) (code : String) (hdrs : ReqHeaders) (now : Int) (hcode : code ≠ "") :
    (∀ m, isErrorEnvelope (errorResponse m))
  ∧ isErrorEnvelope noTokenResp.body
  ∧ isErrorEnvelope invalidTokenResp.body
  ∧ isErrorEnvelope tooManyResp.body
  ∧ isErrorEnvelope routeNotFoundResp.body
  ∧ (findUrlByShortCode s code = none →
      redirect s (some code) hdrs now
        = ({ status := 404, body := Body.text "URL not found" }, s))
  ∧ (∀ rec e, findUrlByShortCode s code = some rec → rec.expiresAt = some e → e < now →
      redirect s (some code) hdrs now
        = ({ status := 410, body := Body.text "URL has expired" }, s)) := by
  refine ⟨fun m => Or.inr ⟨m, 400, rfl⟩, Or.inl ⟨_, rfl⟩, Or.inl ⟨_, rfl⟩, Or.inl ⟨_, rfl⟩,
    Or.inl ⟨_, rfl⟩, ?_, ?_⟩
  · intro hnone
    simp [redirect, hcode, hnone]
  · intro rec e hfind hexp hlt
    simp [redirect, hcode, hfind, hexp, hlt]

/-- Witness for the amended C1 theorem at a concrete store and request. -/
theorem error_envelope_amended_witness :
    redirect { urls := [], analytics := [] } (some "zzz") ⟨none, none, none⟩ 5
      = ({ status := 404, body := Body.text "URL not found" },
         ({ urls := [], analytics := [] } : Store)) :=
  (error_envelope_amended { urls := [], analytics := [] } "zzz" ⟨none, none, none⟩ 5
    (by decide)).2.2.2.2.2.1 rfl

/-! ### Claim C7 — expiration boundary of the redirect endpoint -/

/-- C7: for an existing code, an expiration set in the past yields 410
(distinct from the 404 of an absent code); an unset or future expiration
yields a 302 redirect to the original URL. -/
theorem redirect_expiration
    (s : Store) (code : String) (hdrs : ReqHeaders) (now : Int) (rec : UrlRow)
    (hcode : code ≠ "") (hfind : findUrlByShortCode s code = some rec) :
    (∀ e, rec.expiresAt = some e → e < now →
        redirect s (some code) hdrs now
          = ({ status := 410, body := Body.text "URL has expired" }, s))
  ∧ ((rec.expiresAt = none ∨ ∃ e, rec.expiresAt = some e ∧ now < e) →
        (redirect s (some code) hdrs now).1
          = { status := 302, body := Body.empty, location := some rec.originalUrl })
  ∧ (∀ s2 : Store, findUrlByShortCode s2 code = none →
        redirect s2 (some code) hdrs now
          = ({ status := 404, body := Body.text "URL not found" }, s2)) := by
  refine ⟨?_, ?_, ?_⟩
  · intro e he hlt
    simp [redirect, hcode, hfind, he, hlt]
  · rintro (he | ⟨e, he, hgt⟩)
    · simp [redirect, hcode, hfind, he, redirectGo]
    · have hnl : ¬e < now := by omega
      simp [redirect, hcode, hfind, he, hnl, redirectGo]
  · intro s2 hn
    simp [redirect, hcode, hn]

/-- Witness for C7 at a concrete store: a future expiration redirects with
302, and the same code expired in the past returns 410. -/
theorem redirect_expiration_witness :
    ((redirect { urls := [⟨1, "live", "https://a.io", none, 0, some 900⟩], analytics := [] }
        (some "live") ⟨none, none, none⟩ 100).1
      = { status := 302, body := Body.empty, location := some "https://a.io" })
  ∧ (redirect { urls := [⟨1, "live", "https://a.io", none, 0, some 900⟩], analytics := [] }
        (some "live") ⟨none, none, none⟩ 1000
      = ({ status := 410, body := Body.text "URL has expired" },
         ({ urls := [⟨1, "live", "https://a.io", none, 0, some 900⟩], analytics := [] } : Store))) := by
  constructor
  · exact (redirect_expiration
      { urls := [⟨1, "live", "https://a.io", none, 0, some 900⟩], analytics := [] }
      "live" ⟨none, none, none⟩ 100 ⟨1, "live", "https://a.io", none, 0, some 900⟩
      (by decide) rfl).2.1 (Or.inr ⟨900, rfl, by norm_num⟩)
  · exact (redirect_expiration
      { urls := [⟨1, "live", "https://a.io", none, 0, some 900⟩], analytics := [] }
      "live" ⟨none, none, none⟩ 1000 ⟨1, "live", "https://a.io", none, 0, some 900⟩
      (by decide) rfl).1 900 rfl (by norm_num)

/-! ### Claim C6 — authenticate middleware -/

/-- C6: extraction succeeds only on the exact two-part header "Bearer t"
(conjunct 1: a successful extraction reconstructs the header as the character
sequence of "Bearer", one space, the token); with no extractable token the
middleware short-circuits with the 401 "No token provided" response (an empty
extracted token is treated the same way by the source's falsiness guard);
with a token whose verification yields null it short-circuits with the 401
"Invalid or expired token" response; on verified tokens it attaches the
decoded user id and username and continues to the handler. -/
theorem authenticate_spec :
    (∀ (h t : String), AuthService.extractTokenFromHeader (some h) = some t →
        h.toList = "Bearer".toList ++ ' ' :: t.toList)
  ∧ (∀ (verify : String → Option JwtPayload) (hdr : Option String),
        AuthService.extractTokenFromHeader hdr = none →
        authenticate verify hdr = AuthStep.short noTokenResp)
  ∧ (∀ (verify : String → Option JwtPayload) (hdr : Option String),
        AuthService.extractTokenFromHeader hdr = some "" →
        authenticate verify hdr = AuthStep.short noTokenResp)
  ∧ (∀ (verify : String → Option JwtPayload) (hdr : Option String) (t : String),
        AuthService.extractTokenFromHeader hdr = some t → t ≠ "" → verify t = none →
        authenticate verify hdr = AuthStep.short invalidTokenResp)
  ∧ (∀ (verify : String → Option JwtPayload) (hdr : Option String) (t : String)
        (p : JwtPayload),
        AuthService.extractTokenFromHeader hdr = some t → t ≠ "" → verify t = some p →
        authenticate verify hdr = AuthStep.proceed p.userId p.username) := by
  refine ⟨?_, ?_, ?_, ?_, ?_⟩
  · intro h t hx
    by_cases hh : h = ""
    · simp [AuthService.extractTokenFromHeader, hh] at hx
    · simp only [AuthService.extractTokenFromHeader, if_neg hh] at hx
      rcases hsp : splitAll ' ' h.toList with _ | ⟨p0, rest⟩
      · rw [hsp] at hx; exact Option.noConfusion hx
      · rcases rest with _ | ⟨p1, rest2⟩
        · rw [hsp] at hx; exact Option.noConfusion hx
        · rcases rest2 with _ | ⟨p2, rest3⟩
          · rw [hsp] at hx
            have hx2 : (if p0 = "Bearer".toList then some (String.mk p1) else none)
                = some t := hx
            by_cases hb : p0 = "Bearer".toList
            · rw [if_pos hb] at hx2
              have ht : t = String.mk p1 := (Option.some.inj hx2).symm
              have hjoin := joinAll_splitAll ' ' h.toList
              rw [hsp] at hjoin
              have : joinAll ' ' [p0, p1] = p0 ++ ' ' :: p1 := by simp [joinAll]
              rw [this] at hjoin
              rw [← hjoin, hb, ht]
              rfl
            · rw [if_neg hb] at hx2; exact Option.noConfusion hx2
          · rw [hsp] at hx; exact Option.noConfusion hx
  · intro verify hdr hx
    simp [authenticate, hx]
  · intro verify hdr hx
    simp [authenticate, hx]
  · intro verify hdr t hx ht hv
    simp [authenticate, hx, ht, hv]
  · intro verify hdr t p hx ht hv
    simp [authenticate, hx, ht, hv]

/-- Witness for C6 with a concrete verifier: a well-formed bearer header with
a known token reaches the handler with its identity; a header without the
Bearer scheme is rejected as missing; a two-part header with an unknown token
is rejected as invalid. -/
theorem authenticate_spec_witness :
    (authenticate (fun s => if s = "tok" then some ⟨7, "alice"⟩ else none)
        (some "Bearer tok") = AuthStep.proceed 7 "alice")
  ∧ (authenticate (fun s => if s = "tok" then some ⟨7, "alice"⟩ else none)
        (some "token tok") = AuthStep.short noTokenResp)
  ∧ (authenticate (fun s => if s = "tok" then some ⟨7, "alice"⟩ else none)
        (some "Bearer bad") = AuthStep.short invalidTokenResp) := by
  refine ⟨?_, ?_, ?_⟩
  · exact authenticate_spec.2.2.2.2 _ _ "tok" ⟨7, "alice"⟩ (by decide) (by decide) (by decide)
  · exact authenticate_spec.2.1 _ _ (by decide)
  · exact authenticate_spec.2.2.2.1 _ _ "bad" (by decide) (by decide) (by decide)

/-! ### Claim C2 — register validation on missing fields / missing body -/

/-- C2: evaluation at the failing input.  A POST to the register route with
no JSON body at all (no JSON content type, so the parser leaves the body
unset) does not produce the claimed 400 validation response: the controller
destructures an absent body and throws, and the error boundary converts that
into a 500.  By contrast, a parsed body with a missing field does give the
400 "All fields are required" response. -/
theorem register_missing_body_500 :
    ((registerRoute (fun _ => none) (fun _ => none) (fun p => p) (fun _ u => u) 1 none
        (Except.error ())).status = 500)
  ∧ ((registerRoute (fun _ => none) (fun _ => none) (fun p => p) (fun _ u => u) 1 none
        (Except.error ())).status ≠ 400)
  ∧ (registerRoute (fun _ => none) (fun _ => none) (fun p => p) (fun _ u => u) 1
        (some "application/json")
        (Except.ok { username := some "alice", email := none, password := some "Test1234" })
      = jsonResp 400 (errorResponse "All fields are required")) := by
  refine ⟨rfl, by decide, rfl⟩

/-! ### Claim C3 — uniqueness-seeking short-code generation -/

/-- The search fails exactly when every code checked within the fuel bound is
already taken. -/
theorem seekAux_none_iff (taken : String → Bool) (gen : Nat → String) :
    ∀ (fuel start : Nat),
      (seekAux taken gen start fuel = none ↔
        ∀ j, j < fuel → taken (gen (start + j)) = true) := by
  intro fuel
  induction fuel with
  | zero =>
      intro start
      constructor
      · intro _ j hj
        exact absurd hj (Nat.not_lt_zero j)
      · intro _
        rfl
  | succ n ih =>
      intro start
      rw [show seekAux taken gen start (n + 1)
          = if taken (gen start) then seekAux taken gen (start + 1) n else some (gen start)
        from rfl]
      by_cases h : taken (gen start) = true
      · rw [if_pos h, ih (start + 1)]
        constructor
        · intro hall j hj
          rcases Nat.eq_zero_or_pos j with h0 | hpos
          · subst h0
            simpa using h
          · have hp := hall (j - 1) (by omega)
            have harg : start + 1 + (j - 1) = start + j := by omega
            rwa [harg] at hp
        · intro hall j hj
          have hp := hall (j + 1) (by omega)
          have harg : start + (j + 1) = start + 1 + j := by omega
          rwa [harg] at hp
      · rw [if_neg h]
        constructor
        · intro hc
          exact Option.noConfusion hc
        · intro hall
          exact absurd (hall 0 (by omega)) (by simpa using h)

/-- A code returned by the search was free at its existence check, and is one
of the draws made within the fuel bound. -/
theorem seekAux_some_free (taken : String → Bool) (gen : Nat → String) :
    ∀ (fuel start : Nat) (c : String), seekAux taken gen start fuel = some c →
      taken c = false ∧ ∃ j, j < fuel ∧ c = gen (start + j) := by
  intro fuel
  induction fuel with
  | zero =>
      intro start c h
      exact Option.noConfusion h
  | succ n ih =>
      intro start c h
      rw [show seekAux taken gen start (n + 1)
          = if taken (gen start) then seekAux taken gen (start + 1) n else some (gen start)
        from rfl] at h
      by_cases ht : taken (gen start) = true
      · rw [if_pos ht] at h
        obtain ⟨hfree, j, hj, hc⟩ := ih (start + 1) c h
        refine ⟨hfree, j + 1, by omega, ?_⟩
        rw [hc]
        congr 1
        omega
      · rw [if_neg ht] at h
        have hc := Option.some.inj h
        refine ⟨by rw [← hc]; simpa using ht, 0, by omega, by rw [← hc, Nat.add_zero]⟩

/-- C3: on the auto-generation path (no custom code), if all ten checked
draws already exist in the store the creation request answers 500
"Failed to generate unique code" with the store unchanged; otherwise it
answers 201 with a code that was absent from the store at its check. -/
theorem create_auto_code_spec
    (validUrl : String → Bool) (gen : Nat → String) (baseUrl : String)
    (s : Store) (user : Option JwtPayload) (b : CreateBody) (now : Int)
    (url : String) (hurl : b.url = some url) (hne : url ≠ "")
    (hvalid : validUrl url = true)
    (hauto : b.customCode = none ∨ b.customCode = some "") :
    ((∀ k, k < 10 → (findUrlByShortCode s (gen k)).isSome = true) →
        createShortUrl validUrl gen baseUrl s user (some b) now
          = Except.ok (jsonResp 500 (errorResponse "Failed to generate unique code"), s))
  ∧ ((∃ k, k < 10 ∧ (findUrlByShortCode s (gen k)).isSome = false) →
        ∃ code, findUrlByShortCode s code = none ∧
          createShortUrl validUrl gen baseUrl s user (some b) now
            = Except.ok (jsonResp 201 (createdBody baseUrl code url (computedExpiry b now)),
                createUrlRow s code url (creatorUserId user) (computedExpiry b now))) := by
  constructor
  · intro hall
    have hseek : seekUniqueCode (fun c => (findUrlByShortCode s c).isSome) gen = none := by
      rw [seekUniqueCode, seekAux_none_iff]
      intro j hj
      simpa using hall j hj
    rcases hauto with hcc | hcc <;>
      simp [createShortUrl, hurl, hne, hvalid, hcc, hseek]
  · intro hfree
    rcases hseek : seekUniqueCode (fun c => (findUrlByShortCode s c).isSome) gen with _ | code
    · exfalso
      rw [seekUniqueCode, seekAux_none_iff] at hseek
      obtain ⟨k, hk, hfk⟩ := hfree
      have htaken := hseek k hk
      rw [Nat.zero_add k] at htaken
      rw [htaken] at hfk
      exact Bool.noConfusion hfk
    · obtain ⟨hfreeCode, _⟩ :=
        seekAux_some_free (fun c => (findUrlByShortCode s c).isSome) gen 10 0 code hseek
      refine ⟨code, ?_, ?_⟩
      · rcases hopt : findUrlByShortCode s code with _ | v
        · rfl
        · rw [hopt] at hfreeCode
          exact Bool.noConfusion hfreeCode
      · rcases hauto with hcc | hcc <;>
          simp [createShortUrl, hurl, hne, hvalid, hcc, hseek]

/-- Witness for C3: a generator stuck on a taken code forces the 500 with
the store unchanged; on an empty store the first draw is free and a 201 is
returned. -/
theorem create_auto_code_spec_witness :
    (createShortUrl (fun _ => true) (fun _ => "dup") "http://localhost:3000"
        { urls := [⟨1, "dup", "https://t.co", none, 0, none⟩], analytics := [] } none
        (some { url := some "https://t.co", customCode := none, expiresInDays := none }) 0
      = Except.ok (jsonResp 500 (errorResponse "Failed to generate unique code"),
          ({ urls := [⟨1, "dup", "https://t.co", none, 0, none⟩], analytics := [] } : Store)))
  ∧ (∃ code, findUrlByShortCode { urls := [], analytics := [] } code = none ∧
      createShortUrl (fun _ => true) (fun _ => "new") "http://localhost:3000"
          { urls := [], analytics := [] } none
          (some { url := some "https://t.co", customCode := none, expiresInDays := none }) 0
        = Except.ok
            (jsonResp 201 (createdBody "http://localhost:3000" code "https://t.co" none),
             createUrlRow { urls := [], analytics := [] } code "https://t.co" none none)) := by
  constructor
  · exact (create_auto_code_spec (fun _ => true) (fun _ => "dup") "http://localhost:3000"
      { urls := [⟨1, "dup", "https://t.co", none, 0, none⟩], analytics := [] } none
      { url := some "https://t.co", customCode := none, expiresInDays := none } 0
      "https://t.co" rfl (by decide) rfl (Or.inl rfl)).1 (fun k _ => by decide)
  · exact (create_auto_code_spec (fun _ => true) (fun _ => "new") "http://localhost:3000"
      { urls := [], analytics := [] } none
      { url := some "https://t.co", customCode := none, expiresInDays := none } 0
      "https://t.co" rfl (by decide) rfl (Or.inl rfl)).2 ⟨0, by omega, by decide⟩

/-! ### Claim C8 — exactly one click row and one counter increment per redirect -/

/-- C8: starting from a store where the code resolves to a row, N sequential
redirects at times at which the row is not expired all answer 302, leave the
row's click counter increased by exactly N, and grow the row's click-event
rows by exactly N. -/
theorem redirect_click_accounting
    (hdrs : ReqHeaders) (code : String) (hcode : code ≠ "") :
    ∀ (times : List Int) (s : Store) (rec : UrlRow),
      findUrlByShortCode s code = some rec →
      (∀ t ∈ times, ∀ e, rec.expiresAt = some e → ¬e < t) →
      (redirectRun hdrs code s times).1
          = times.map (fun _ =>
              { status := 302, body := Body.empty, location := some rec.originalUrl })
        ∧ findUrlByShortCode (redirectRun hdrs code s times).2 code
            = some { rec with clicks := rec.clicks + times.length }
        ∧ countClicksFor (redirectRun hdrs code s times).2 rec.id
            = countClicksFor s rec.id + times.length := by
  intro times
  induction times with
  | nil =>
      intro s rec hfind _
      refine ⟨rfl, ?_, rfl⟩
      simpa using hfind
  | cons t ts ih =>
      intro s rec hfind hexp
      have hstep := redirect_step s code hdrs t rec hcode hfind
        (fun e he => hexp t (by simp) e he)
      have hfind2 : findUrlByShortCode
          (incrementClicks (logClick s ⟨rec.id, jsOrNull hdrs.userAgent, jsOrNull hdrs.referer,
            jsOrUnknown hdrs.xForwardedFor⟩) rec.id) code
          = some { rec with clicks := rec.clicks + 1 } := by
        rw [findUrl_incrementClicks, findUrl_logClick, hfind]
        simp
      have hcount2 : countClicksFor
          (incrementClicks (logClick s ⟨rec.id, jsOrNull hdrs.userAgent, jsOrNull hdrs.referer,
            jsOrUnknown hdrs.xForwardedFor⟩) rec.id) rec.id
          = countClicksFor s rec.id + 1 := by
        rw [countClicks_incrementClicks]
        exact countClicks_logClick_same s
          ⟨rec.id, jsOrNull hdrs.userAgent, jsOrNull hdrs.referer, jsOrUnknown hdrs.xForwardedFor⟩
      obtain ⟨ih1, ih2, ih3⟩ := ih
        (incrementClicks (logClick s ⟨rec.id, jsOrNull hdrs.userAgent, jsOrNull hdrs.referer,
          jsOrUnknown hdrs.xForwardedFor⟩) rec.id)
        { rec with clicks := rec.clicks + 1 } hfind2
        (fun t2 ht2 e he => hexp t2 (by simp [ht2]) e he)
      refine ⟨?_, ?_, ?_⟩
      · simp only [redirectRun]
        rw [hstep]
        simp only [List.map_cons]
        rw [ih1]
      · simp only [redirectRun]
        rw [hstep]
        dsimp only
        rw [ih2]
        have harith : rec.clicks + 1 + ts.length = rec.clicks + (ts.length + 1) := by omega
        dsimp only
        rw [harith]
        rfl
      · simp only [redirectRun]
        rw [hstep]
        dsimp only
        rw [ih3, hcount2]
        simp only [List.length_cons]
        omega

/-- Witness for C8: two sequential redirects of a concrete fresh URL leave
its counter at 2 with two logged click rows. -/
theorem redirect_click_accounting_witness :
    (findUrlByShortCode
        (redirectRun ⟨none, none, none⟩ "abc"
          { urls := [⟨1, "abc", "https://x.io", none, 0, none⟩], analytics := [] } [10, 20]).2 "abc"
      = some ⟨1, "abc", "https://x.io", none, 2, none⟩)
  ∧ (countClicksFor
        (redirectRun ⟨none, none, none⟩ "abc"
          { urls := [⟨1, "abc", "https://x.io", none, 0, none⟩], analytics := [] } [10, 20]).2 1
      = 2) := by
  have h := redirect_click_accounting ⟨none, none, none⟩ "abc" (by decide) [10, 20]
    { urls := [⟨1, "abc", "https://x.io", none, 0, none⟩], analytics := [] }
    ⟨1, "abc", "https://x.io", none, 0, none⟩ rfl
    (fun t ht e he => Option.noConfusion he)
  exact ⟨h.2.1, h.2.2⟩

/-! ### Claim C9 — ownership isolation between users -/

/-- C9: for distinct users a and b and a URL owned by b, an authenticated
analytics request by a answers 403; an authenticated delete by a answers 404
with the store unchanged (the conditional delete scoped to the pair affects
zero rows); and deleting a non-owned code and deleting a nonexistent code
produce literally identical 404 responses. -/
theorem ownership_isolation
    (s : Store) (code code2 : String) (a b : Nat) (uname : String) (rec : UrlRow)
    (agg : List ClickRow → Json)
    (hab : a ≠ b) (hcode : code ≠ "") (hcode2 : code2 ≠ "")
    (hfind : findUrlByShortCode s code = some rec) (howner : rec.userId = some b)
    (hall : ∀ r ∈ s.urls, r.shortCode = code → r.userId = some b)
    (hmiss : ∀ r ∈ s.urls, r.shortCode ≠ code2) :
    (getAnalytics agg s (some ⟨a, uname⟩) (some code)
        = jsonResp 403 (errorResponse "Unauthorized"))
  ∧ (deleteUrlCtrl s (some ⟨a, uname⟩) (some code)
        = (jsonResp 404 (errorResponse "URL not found or unauthorized"), s))
  ∧ (deleteUrlCtrl s (some ⟨a, uname⟩) (some code2)
        = (jsonResp 404 (errorResponse "URL not found or unauthorized"), s))
  ∧ ((deleteUrlCtrl s (some ⟨a, uname⟩) (some code)).1
        = (deleteUrlCtrl s (some ⟨a, uname⟩) (some code2)).1) := by
  have hkeep : s.urls.filter
      (fun r => !decide (r.shortCode = code) || !decide (r.userId = some a)) = s.urls := by
    rw [List.filter_eq_self]
    intro r hr
    by_cases hc : r.shortCode = code
    · have hu : r.userId = some b := hall r hr hc
      simp [hc, hu, Option.some.injEq]
      omega
    · simp [hc]
  have hkeep2 : s.urls.filter
      (fun r => !decide (r.shortCode = code2) || !decide (r.userId = some a)) = s.urls := by
    rw [List.filter_eq_self]
    intro r hr
    simp [hmiss r hr]
  have hne : rec.userId ≠ some a := by
    rw [howner]
    intro hx
    exact hab (Option.some.inj hx).symm
  refine ⟨?_, ?_, ?_, ?_⟩
  · simp [getAnalytics, hcode, hfind, hne]
  · simp [deleteUrlCtrl, hcode, queriesDeleteUrl, hkeep]
  · simp [deleteUrlCtrl, hcode2, queriesDeleteUrl, hkeep2]
  · simp [deleteUrlCtrl, hcode, hcode2, queriesDeleteUrl, hkeep, hkeep2]

/-- Witness for C9 with a concrete two-user store: user 1 gets 403 on
analytics and 404 on delete for a URL owned by user 2, and the delete
responses for the non-owned and the nonexistent code coincide. -/
theorem ownership_isolation_witness :
    (getAnalytics (fun _ => Json.null)
        { urls := [⟨1, "bees", "https://e.com", some 2, 0, none⟩], analytics := [] }
        (some ⟨1, "amy"⟩) (some "bees")
      = jsonResp 403 (errorResponse "Unauthorized"))
  ∧ (deleteUrlCtrl { urls := [⟨1, "bees", "https://e.com", some 2, 0, none⟩], analytics := [] }
        (some ⟨1, "amy"⟩) (some "bees")
      = (jsonResp 404 (errorResponse "URL not found or unauthorized"),
         ({ urls := [⟨1, "bees", "https://e.com", some 2, 0, none⟩], analytics := [] } : Store))) := by
  have h := ownership_isolation
    { urls := [⟨1, "bees", "https://e.com", some 2, 0, none⟩], analytics := [] }
    "bees" "nope" 1 2 "amy" ⟨1, "bees", "https://e.com", some 2, 0, none⟩ (fun _ => Json.null)
    (by decide) (by decide) (by decide) rfl rfl
    (by intro r hr hc; simp at hr; rw [hr]) (by intro r hr; simp at hr; rw [hr]; decide)
  exact ⟨h.1, h.2.1⟩

/-! ### Claim C10 — anonymous URLs can never be inspected or deleted -/

/-- C10: a URL row created anonymously carries a NULL owner id (the creation
flow records `creatorUserId none = none`); because NULL never equals any
caller's id, every authenticated analytics request for such a code answers
403, and every authenticated delete answers 404 leaving the store — and the
row — in place. -/
theorem anonymous_urls_unmanageable
    (s : Store) (code : String) (rec : UrlRow) (agg : List ClickRow → Json)
    (hcode : code ≠ "") (hfind : findUrlByShortCode s code = some rec)
    (howner : rec.userId = none)
    (hall : ∀ r ∈ s.urls, r.shortCode = code → r.userId = none) :
    (creatorUserId none = none)
  ∧ (∀ (u : Nat) (uname : String),
        getAnalytics agg s (some ⟨u, uname⟩) (some code)
          = jsonResp 403 (errorResponse "Unauthorized"))
  ∧ (∀ (u : Nat) (uname : String),
        deleteUrlCtrl s (some ⟨u, uname⟩) (some code)
          = (jsonResp 404 (errorResponse "URL not found or unauthorized"), s))
  ∧ (∀ (u : Nat) (uname : String),
        findUrlByShortCode (deleteUrlCtrl s (some ⟨u, uname⟩) (some code)).2 code
          = some rec) := by
  have hkeep : ∀ u : Nat, s.urls.filter
      (fun r => !decide (r.shortCode = code) || !decide (r.userId = some u)) = s.urls := by
    intro u
    rw [List.filter_eq_self]
    intro r hr
    by_cases hc : r.shortCode = code
    · simp [hc, hall r hr hc]
    · simp [hc]
  have hne : ∀ u : Nat, rec.userId ≠ some u := by
    intro u
    rw [howner]
    exact fun hx => Option.noConfusion hx
  refine ⟨rfl, ?_, ?_, ?_⟩
  · intro u uname
    simp [getAnalytics, hcode, hfind, hne u]
  · intro u uname
    simp [deleteUrlCtrl, hcode, queriesDeleteUrl, hkeep u]
  · intro u uname
    simp [deleteUrlCtrl, hcode, queriesDeleteUrl, hkeep u, hfind]

/-- Witness for C10 at a concrete anonymous URL and concrete caller. -/
theorem anonymous_urls_unmanageable_witness :
    (getAnalytics (fun _ => Json.null)
        { urls := [⟨1, "anon", "https://p.io", none, 3, none⟩], analytics := [] }
        (some ⟨9, "zoe"⟩) (some "anon")
      = jsonResp 403 (errorResponse "Unauthorized"))
  ∧ (deleteUrlCtrl { urls := [⟨1, "anon", "https://p.io", none, 3, none⟩], analytics := [] }
        (some ⟨9, "zoe"⟩) (some "anon")
      = (jsonResp 404 (errorResponse "URL not found or unauthorized"),
         ({ urls := [⟨1, "anon", "https://p.io", none, 3, none⟩], analytics := [] } : Store))) := by
  have h := anonymous_urls_unmanageable
    { urls := [⟨1, "anon", "https://p.io", none, 3, none⟩], analytics := [] }
    "anon" ⟨1, "anon", "https://p.io", none, 3, none⟩ (fun _ => Json.null)
    (by decide) rfl rfl
    (by intro r hr hc; simp at hr; rw [hr])
  exact ⟨h.2.1 9 "zoe", h.2.2.1 9 "zoe"⟩

/-! ### Claim C4 — rate-limit window behavior -/

/-- Inside one live window, starting from a stored count c at or below the
maximum, request i of a same-key sequence is rejected exactly when the
maximum is at or below c + i, and the stored count ends at the saturated
value, the reset timestamp untouched. -/
theorem rateLimitRun_window (maxRequests : Nat) (windowMs : Int) (k : String) :
    ∀ (ts : List Int) (st : RLStore) (c : Nat) (reset : Int),
      st k = some ⟨c, reset⟩ → c ≤ maxRequests → (∀ t ∈ ts, t < reset) →
      (rateLimitRun maxRequests windowMs st (ts.map (fun t => (k, t)))).1
          = (List.range ts.length).map (fun i => decide (maxRequests ≤ c + i))
        ∧ (rateLimitRun maxRequests windowMs st (ts.map (fun t => (k, t)))).2 k
            = some ⟨min (c + ts.length) maxRequests, reset⟩ := by
  intro ts
  induction ts with
  | nil =>
      intro st c reset hst hc _
      refine ⟨rfl, ?_⟩
      show st k = some ⟨min (c + 0) maxRequests, reset⟩
      rw [hst, Nat.add_zero, Nat.min_eq_left hc]
  | cons t ts ih =>
      intro st c reset hst hc hmem
      have ht : t < reset := hmem t (by simp)
      by_cases hcm : maxRequests ≤ c
      · have hceq : c = maxRequests := Nat.le_antisymm hc hcm
        have hstep : rateLimitStep maxRequests windowMs st k t = (some tooManyResp, st) := by
          simp [rateLimitStep, hst, ht, hcm]
        obtain ⟨h1, h2⟩ := ih st c reset hst hc (fun x hx => hmem x (by simp [hx]))
        constructor
        · simp only [List.map_cons, rateLimitRun, hstep, List.length_cons, h1,
            List.range_succ_eq_map, List.map_map]
          congr 1
          · simp [hcm]
          · apply List.map_congr_left
            intro i _
            simp only [Function.comp]
            exact decide_eq_decide.mpr (by omega)
        · simp only [List.map_cons, rateLimitRun, hstep, h2, List.length_cons]
          have : min (c + ts.length) maxRequests = min (c + (ts.length + 1)) maxRequests := by
            omega
          rw [this]
      · have hstep : rateLimitStep maxRequests windowMs st k t
            = (none, rlSet st k ⟨c + 1, reset⟩) := by
          simp [rateLimitStep, hst, ht, hcm]
        have hst2 : rlSet st k ⟨c + 1, reset⟩ k = some ⟨c + 1, reset⟩ := by
          simp [rlSet]
        obtain ⟨h1, h2⟩ := ih (rlSet st k ⟨c + 1, reset⟩) (c + 1) reset hst2 (by omega)
          (fun x hx => hmem x (by simp [hx]))
        constructor
        · simp only [List.map_cons, rateLimitRun, hstep, List.length_cons, h1,
            List.range_succ_eq_map, List.map_map]
          congr 1
          · simp [hcm]
          · apply List.map_congr_left
            intro i _
            simp only [Function.comp]
            exact decide_eq_decide.mpr (by omega)
        · simp only [List.map_cons, rateLimitRun, hstep, h2, List.length_cons]
          have : min (c + 1 + ts.length) maxRequests = min (c + (ts.length + 1)) maxRequests := by
            omega
          rw [this]

/-- C4: for a fresh key and a positive maximum, a same-key sequence whose
later requests all fall before the window's reset gets request j (counting
from zero) rejected with 429 exactly when j reaches the maximum — the first
max requests never see a 429, every request beyond does; a rejection never
increments the stored counter; once the reset time is reached the counter
restarts at 1 with a new window; and a step for one key never changes any
other key's record. -/
theorem rateLimit_window_spec
    (maxRequests : Nat) (windowMs : Int) (k : String) (t0 : Int) (ts : List Int)
    (st0 : RLStore) (hmax : 1 ≤ maxRequests) (hfresh : st0 k = none)
    (hwin : ∀ t ∈ ts, t < t0 + windowMs) :
    ((rateLimitRun maxRequests windowMs st0 ((t0 :: ts).map (fun t => (k, t)))).1
        = (List.range (ts.length + 1)).map (fun j => decide (maxRequests ≤ j)))
  ∧ (∀ (st : RLStore) (ip : String) (t : Int) (rec : RLRecord),
        st ip = some rec → t < rec.resetAt → maxRequests ≤ rec.count →
        rateLimitStep maxRequests windowMs st ip t = (some tooManyResp, st))
  ∧ (∀ (st : RLStore) (ip : String) (t : Int) (rec : RLRecord),
        st ip = some rec → rec.resetAt ≤ t →
        rateLimitStep maxRequests windowMs st ip t
          = (none, rlSet st ip { count := 1, resetAt := t + windowMs }))
  ∧ (∀ (st : RLStore) (ip q : String) (t : Int), q ≠ ip →
        (rateLimitStep maxRequests windowMs st ip t).2 q = st q) := by
  refine ⟨?_, ?_, ?_, ?_⟩
  · have hstep : rateLimitStep maxRequests windowMs st0 k t0
        = (none, rlSet st0 k ⟨1, t0 + windowMs⟩) := by
      simp [rateLimitStep, hfresh]
    have hst1 : rlSet st0 k ⟨1, t0 + windowMs⟩ k = some ⟨1, t0 + windowMs⟩ := by
      simp [rlSet]
    obtain ⟨h1, _⟩ := rateLimitRun_window maxRequests windowMs k ts
      (rlSet st0 k ⟨1, t0 + windowMs⟩) 1 (t0 + windowMs) hst1 hmax hwin
    simp only [List.map_cons, rateLimitRun, hstep, h1,
      List.range_succ_eq_map, List.map_map]
    congr 1
    · have hz : ¬maxRequests ≤ 0 := by omega
      simp [hz]
    · apply List.map_congr_left
      intro i _
      simp only [Function.comp]
      exact decide_eq_decide.mpr (by omega)
  · intro st ip t rec hst hlt hge
    simp [rateLimitStep, hst, hlt, hge]
  · intro st ip t rec hst hge
    have : ¬t < rec.resetAt := by omega
    simp [rateLimitStep, hst, this]
  · intro st ip q t hne
    rcases hst : st ip with _ | rec
    · simp [rateLimitStep, hst, rlSet, hne]
    · by_cases hlt : t < rec.resetAt
      · by_cases hge : maxRequests ≤ rec.count
        · simp [rateLimitStep, hst, hlt, hge]
        · simp [rateLimitStep, hst, hlt, hge, rlSet, hne]
      · simp [rateLimitStep, hst, hlt, rlSet, hne]

/-- Witness for C4: with a maximum of 2 and a 100ms window, four same-key
requests inside one window yield pass, pass, 429, 429. -/
theorem rateLimit_window_spec_witness :
    (rateLimitRun 2 100 rlEmpty [("a", 0), ("a", 1), ("a", 2), ("a", 3)]).1
      = [false, false, true, true] := by
  have h := (rateLimit_window_spec 2 100 "a" 0 [1, 2, 3] rlEmpty (by decide) rfl
    (by intro t ht; simp at ht; rcases ht with h | h | h <;> omega)).1
  simpa [List.range_succ] using h

/-! ### Claim C5 — route matching and dispatch -/

/-- The segment loop succeeds exactly when the spec's per-segment rule
relates the two segment lists (which forces equal segment counts). -/
theorem matchSegsAux_isSome :
    ∀ (ps ss : List String) (acc : List (String × String)),
      (matchSegsAux acc ps ss).isSome = true ↔ List.Forall₂ segOk ps ss := by
  intro ps
  induction ps with
  | nil =>
      intro ss acc
      cases ss with
      | nil => simp [matchSegsAux]
      | cons s ss => simp [matchSegsAux]
  | cons p ps ih =>
      intro ss acc
      cases ss with
      | nil => simp [matchSegsAux]
      | cons s ss =>
          by_cases hp : startsWithColon p = true
          · rw [show matchSegsAux acc (p :: ps) (s :: ss)
                = matchSegsAux (paramsSet acc (dropHeadChar p) s) ps ss from by
              simp [matchSegsAux, hp]]
            rw [ih ss (paramsSet acc (dropHeadChar p) s), List.forall₂_cons]
            simp [segOk, hp]
          · by_cases he : p = s
            · rw [show matchSegsAux acc (p :: ps) (s :: ss) = matchSegsAux acc ps ss from by
                simp only [matchSegsAux]
                rw [if_neg hp, if_pos he]]
              rw [ih ss acc, List.forall₂_cons]
              simp [segOk, hp, he]
            · rw [show matchSegsAux acc (p :: ps) (s :: ss) = none from by
                simp only [matchSegsAux]
                rw [if_neg hp, if_neg he]]
              rw [List.forall₂_cons]
              simp [segOk, hp, he]

/-- Object assignment appends when the key is fresh. -/
theorem paramsSet_append (acc : List (String × String)) (kk v : String)
    (hfresh : ∀ q ∈ acc, q.1 ≠ kk) : paramsSet acc kk v = acc ++ [(kk, v)] := by
  unfold paramsSet
  rw [if_neg]
  intro hany
  obtain ⟨q, hq, hd⟩ := List.any_eq_true.mp hany
  rw [decide_eq_true_eq] at hd
  exact hfresh q hq hd

/-- With distinct parameter names (true of every registered pattern), a
successful match binds exactly the in-order parameter pairs after the
accumulator. -/
theorem matchSegsAux_bindings :
    ∀ (ps ss : List String) (acc out : List (String × String)),
      (paramNames ps).Nodup →
      (∀ q ∈ acc, q.1 ∉ paramNames ps) →
      matchSegsAux acc ps ss = some out →
      out = acc ++ paramBindings ps ss := by
  intro ps
  induction ps with
  | nil =>
      intro ss acc out _ _ h
      cases ss with
      | nil =>
          simp only [matchSegsAux, Option.some.injEq] at h
          simp [paramBindings, ← h]
      | cons s ss => simp [matchSegsAux] at h
  | cons p ps ih =>
      intro ss acc out hnodup hfresh h
      cases ss with
      | nil => simp [matchSegsAux] at h
      | cons s ss =>
          by_cases hp : startsWithColon p = true
          · have hnames : paramNames (p :: ps) = dropHeadChar p :: paramNames ps := by
              simp [paramNames, hp]
            rw [hnames] at hnodup hfresh
            have hfreshacc : ∀ q ∈ acc, q.1 ≠ dropHeadChar p := by
              intro q hq
              have hx := hfresh q hq
              simp only [List.mem_cons, not_or] at hx
              exact hx.1
            have hset : paramsSet acc (dropHeadChar p) s = acc ++ [(dropHeadChar p, s)] :=
              paramsSet_append acc (dropHeadChar p) s hfreshacc
            have hstep : matchSegsAux (acc ++ [(dropHeadChar p, s)]) ps ss = some out := by
              rw [← hset]
              rw [show matchSegsAux acc (p :: ps) (s :: ss)
                  = matchSegsAux (paramsSet acc (dropHeadChar p) s) ps ss from by
                simp [matchSegsAux, hp]] at h
              exact h
            have hfresh2 : ∀ q ∈ acc ++ [(dropHeadChar p, s)], q.1 ∉ paramNames ps := by
              intro q hq
              rcases List.mem_append.mp hq with hq | hq
              · have hx := hfresh q hq
                simp only [List.mem_cons, not_or] at hx
                exact hx.2
              · simp only [List.mem_singleton] at hq
                rw [hq]
                exact (List.nodup_cons.mp hnodup).1
            have hout := ih ss (acc ++ [(dropHeadChar p, s)]) out
              (List.nodup_cons.mp hnodup).2 hfresh2 hstep
            rw [hout]
            rw [show paramBindings (p :: ps) (s :: ss)
                = (dropHeadChar p, s) :: paramBindings ps ss from by
              simp [paramBindings, hp]]
            rw [List.append_assoc]
            rfl
          · by_cases he : p = s
            · have hnames : paramNames (p :: ps) = paramNames ps := by
                simp [paramNames, hp]
              rw [hnames] at hnodup hfresh
              have hstep : matchSegsAux acc ps ss = some out := by
                rw [show matchSegsAux acc (p :: ps) (s :: ss) = matchSegsAux acc ps ss from by
                  simp only [matchSegsAux]
                  rw [if_neg hp, if_pos he]] at h
                exact h
              rw [ih ss acc out hnodup hfresh hstep]
              rw [show paramBindings (p :: ps) (s :: ss) = paramBindings ps ss from by
                simp [paramBindings, hp]]
            · rw [show matchSegsAux acc (p :: ps) (s :: ss) = none from by
                simp only [matchSegsAux]
                rw [if_neg hp, if_neg he]] at h
              exact Option.noConfusion h

/-- The scan of Router.match returns the first registered route whose method
and pattern both match: every earlier route fails on one of the two. -/
theorem routerMatch_first (m pathname : String) :
    ∀ (routes : List Route) (r : Route) (ps : List (String × String)),
      routerMatch routes m pathname = some (r, ps) →
      r.method = m ∧ Router.matchPath r.path pathname = some ps ∧
        ∃ pre post, routes = pre ++ r :: post ∧
          ∀ r2 ∈ pre, r2.method ≠ m ∨ Router.matchPath r2.path pathname = none := by
  intro routes
  induction routes with
  | nil =>
      intro r ps h
      exact Option.noConfusion h
  | cons a rs ih =>
      intro r ps h
      simp only [routerMatch] at h
      by_cases hm : a.method = m
      · rw [if_pos hm] at h
        rcases hmp : Router.matchPath a.path pathname with _ | qs
        · rw [hmp] at h
          have hrec : routerMatch rs m pathname = some (r, ps) := h
          obtain ⟨h1, h2, pre, post, heq, hpre⟩ := ih r ps hrec
          refine ⟨h1, h2, a :: pre, post, by rw [heq]; rfl, ?_⟩
          intro r2 hr2
          rcases List.mem_cons.mp hr2 with hr2 | hr2
          · rw [hr2]
            exact Or.inr hmp
          · exact hpre r2 hr2
        · rw [hmp] at h
          have heq2 : (some (a, qs) : Option (Route × List (String × String)))
              = some (r, ps) := h
          have h3 := Option.some.inj heq2
          rw [Prod.ext_iff] at h3
          obtain ⟨h4, h5⟩ := h3
          dsimp only at h4 h5
          subst h4
          subst h5
          exact ⟨hm, hmp, [], rs, rfl, by intro r2 hr2; simp at hr2⟩
      · rw [if_neg hm] at h
        obtain ⟨h1, h2, pre, post, heq, hpre⟩ := ih r ps h
        refine ⟨h1, h2, a :: pre, post, by rw [heq]; rfl, ?_⟩
        intro r2 hr2
        rcases List.mem_cons.mp hr2 with hr2 | hr2
        · rw [hr2]
          exact Or.inl hm
        · exact hpre r2 hr2

/-- Router.match fails exactly when every registered route fails on method
or pattern. -/
theorem routerMatch_none_iff (m pathname : String) :
    ∀ routes : List Route,
      routerMatch routes m pathname = none ↔
        ∀ r ∈ routes, r.method ≠ m ∨ Router.matchPath r.path pathname = none := by
  intro routes
  induction routes with
  | nil => simp [routerMatch]
  | cons a rs ih =>
      by_cases hm : a.method = m
      · rcases hmp : Router.matchPath a.path pathname with _ | qs
        · have hstep : routerMatch (a :: rs) m pathname = routerMatch rs m pathname := by
            simp only [routerMatch]
            rw [if_pos hm, hmp]
          rw [hstep, ih]
          constructor
          · intro hall r hr
            rcases List.mem_cons.mp hr with hr | hr
            · rw [hr]
              exact Or.inr hmp
            · exact hall r hr
          · intro hall r hr
            exact hall r (by simp [hr])
        · have hstep : routerMatch (a :: rs) m pathname = some (a, qs) := by
            simp only [routerMatch]
            rw [if_pos hm, hmp]
          rw [hstep]
          constructor
          · intro hc
            exact Option.noConfusion hc
          · intro hall
            rcases hall a (by simp) with hx | hx
            · exact absurd hm hx
            · rw [hmp] at hx
              exact Option.noConfusion hx
      · have hstep : routerMatch (a :: rs) m pathname = routerMatch rs m pathname := by
          simp only [routerMatch]
          rw [if_neg hm]
        rw [hstep, ih]
        constructor
        · intro hall r hr
          rcases List.mem_cons.mp hr with hr | hr
          · rw [hr]
            exact Or.inl hm
          · exact hall r hr
        · intro hall r hr
          exact hall r (by simp [hr])

/-- C5: matching succeeds exactly under equal segment counts with literal
equality, parameter segments always matching; a successful match binds the
parameter values in order (for patterns with distinct parameter names, true
of all registered patterns); the dispatcher selects the first registered
route whose method and pattern match; and with no match it answers the
structured 404 "Route not found". -/
theorem router_matching_spec (m pathname : String) (routes : List Route) :
    (∀ pattern : String, (Router.matchPath pattern pathname).isSome = true
        ↔ List.Forall₂ segOk (segmentsOf pattern) (segmentsOf pathname))
  ∧ (∀ (pattern : String) (out : List (String × String)),
        (paramNames (segmentsOf pattern)).Nodup →
        Router.matchPath pattern pathname = some out →
        out = paramBindings (segmentsOf pattern) (segmentsOf pathname))
  ∧ (∀ (r : Route) (ps : List (String × String)),
        routerMatch routes m pathname = some (r, ps) →
        r.method = m ∧ Router.matchPath r.path pathname = some ps ∧
          ∃ pre post, routes = pre ++ r :: post ∧
            ∀ r2 ∈ pre, r2.method ≠ m ∨ Router.matchPath r2.path pathname = none)
  ∧ (routerMatch routes m pathname = none ↔
        ∀ r ∈ routes, r.method ≠ m ∨ Router.matchPath r.path pathname = none)
  ∧ (routerMatch routes m pathname = none →
        Router.dispatchOf routes m pathname
          = Dispatch.notFound (jsonResp 404 (Body.jsonError "Route not found"))) := by
  refine ⟨?_, ?_, ?_, routerMatch_none_iff m pathname routes, ?_⟩
  · intro pattern
    exact matchSegsAux_isSome (segmentsOf pattern) (segmentsOf pathname) []
  · intro pattern out hnd h
    simpa using matchSegsAux_bindings (segmentsOf pattern) (segmentsOf pathname) [] out hnd
      (by simp) h
  · intro r ps h
    exact routerMatch_first m pathname routes r ps h
  · intro h
    simp [Router.dispatchOf, h, routeNotFoundResp]

/-- Witness for C5 on the application's route table: an unmatched path gets
the structured 404, a parameter pattern binds its value, and the catch-all
redirect route picks up a single-segment path. -/
theorem router_matching_spec_witness :
    (Router.dispatchOf appRoutes "GET" "/x/y/z/w"
        = Dispatch.notFound (jsonResp 404 (Body.jsonError "Route not found")))
  ∧ (Router.matchPath "/api/urls/:code/analytics" "/api/urls/xyz7/analytics"
        = some [("code", "xyz7")])
  ∧ ((routerMatch appRoutes "GET" "/abc123").map (fun q => q.1.tag) = some "redirect") := by
  refine ⟨?_, by decide, by decide⟩
  exact (router_matching_spec "GET" "/x/y/z/w" appRoutes).2.2.2.2 (by decide)
